import Mathlib

/-!
Shallow embedding of the errtrace library (bracesdev/errtrace) and its
source transformer, with theorems checking the natural-language
specification against the code.

The runtime part models:
  * the error values the library manipulates (`GoErr`, with `Option GoErr`
    standing for a possibly-nil Go `error` interface value),
  * the annotating wrapper (`wrapErr` / `Wrap`, from wrap.go and errtrace.go),
  * the trace-tree builder and renderer (tree.go),
  * `UnwrapFrame` (the `TracePC`-capability version),
  * `Caller.Wrap` (wrap_caller.go).

The transformer part models the walker fragments relevant to the claims:
`isErrtraceWrap`, `wrapExpr`, `optout` and the unused-opt-out computation
from cmd/errtrace/main.go, and the toolexec version protocol from
cmd/errtrace/toolexec.go.
-/

/-- A Go error value, as the errtrace library can observe it through
interface probes.  `errTrace` is the library's own annotation type
(errtrace.go); its `inner` field is an `Option` because the Go field
`err error` can hold nil.  `wrapper` is a foreign error with a single
`Unwrap() error`; `multi` is a foreign multi-error with `Unwrap() []error`;
`base` is a terminal error exposing only a message. -/
inductive GoErr where
  | base (msg : String) : GoErr
  | errTrace (inner : Option GoErr) (pc : Nat) : GoErr
  | wrapper (msg : String) (inner : GoErr) : GoErr
  | multi (msg : String) (errs : List GoErr) : GoErr
deriving Repr

mutual
/-- Go interface equality (`==`) on the modelled error values, as
structural equality. -/
def geq : GoErr → GoErr → Bool
  | .base m, .base m' => m == m'
  | .errTrace i p, .errTrace i' p' => geqOpt i i' && p == p'
  | .wrapper m i, .wrapper m' i' => m == m' && geq i i'
  | .multi m es, .multi m' es' => m == m' && geqList es es'
  | _, _ => false

/-- `geq` lifted to possibly-nil errors. -/
def geqOpt : Option GoErr → Option GoErr → Bool
  | none, none => true
  | some a, some b => geq a b
  | _, _ => false

/-- `geq` lifted pointwise to lists of errors. -/
def geqList : List GoErr → List GoErr → Bool
  | [], [] => true
  | a :: as, b :: bs => geq a b && geqList as bs
  | _, _ => false
end

/-- `wrap(err, callerPC)` from errtrace.go: takes a fresh `errTrace` node
from the arena and sets its fields.  The result pointer is never nil. -/
def wrapErr (err : Option GoErr) (callerPC : Nat) : GoErr :=
  .errTrace err callerPC

/-- `Wrap(err)` from wrap.go: nil in, nil out; otherwise `wrap(err, pc)`
with the caller's captured PC (the PC is a parameter of the model). -/
def Wrap (err : Option GoErr) (callerPC : Nat) : Option GoErr :=
  match err with
  | none => none
  | some _ => some (wrapErr err callerPC)

/-- `Wrap` with the arena's allocation count threaded through: `allocs`
counts calls of `_arena.Take()`.  The nil path returns before `wrap` is
reached, so it performs no allocation. -/
def WrapAlloc (err : Option GoErr) (callerPC : Nat) (allocs : Nat) :
    Option GoErr × Nat :=
  match err with
  | none => (none, allocs)
  | some _ => (some (wrapErr err callerPC), allocs + 1)

/-- `errTrace.Error()` (errtrace.go): forwards to the inner error's
message.  Returns `none` when the receiver's inner error is nil, in which
case the Go code would panic with a nil dereference. -/
def errMessage : GoErr → Option String
  | .base m => some m
  | .errTrace inner _ =>
    match inner with
    | some e => errMessage e
    | none => none
  | .wrapper m _ => some m
  | .multi m _ => some m

/-- `errors.Unwrap` as the library relies on it: the result of the single
`Unwrap() error` method if the dynamic type has one, nil otherwise.
`errTrace.Unwrap` (errtrace.go) returns the stored inner error. -/
def errorsUnwrap : GoErr → Option GoErr
  | .errTrace inner _ => inner
  | .wrapper _ inner => some inner
  | _ => none

/-- The multi-error probe `Unwrap() []error`: only `multi` has it. -/
def errorsUnwrapMulti : GoErr → Option (List GoErr)
  | .multi _ errs => some errs
  | _ => none

mutual
/-- The standard library's is-this-error lookup (`errors.Is`) restricted to
the capabilities modelled here: compare, then follow the single-unwrap
chain, branching into every member of a multi-error. -/
def errorsIs : GoErr → GoErr → Bool
  | err, target =>
    geq err target ||
      match err with
      | .errTrace inner _ =>
        match inner with
        | some i => errorsIs i target
        | none => false
      | .wrapper _ inner => errorsIs inner target
      | .multi _ errs => errorsIsAny errs target
      | .base _ => false

/-- `errors.Is` applied to each member of a multi-error's list. -/
def errorsIsAny : List GoErr → GoErr → Bool
  | [], _ => false
  | e :: es, target => errorsIs e target || errorsIsAny es target
end

/-- `Caller` (wrap_caller.go): a previously captured caller PC. -/
structure Caller where
  callerPC : Nat
deriving DecidableEq, Repr

/-- `Caller.Wrap` (wrap_caller.go): `return wrap(err, c.callerPC)` with no
nil check, so the result is always a non-nil annotation node. -/
def Caller.Wrap (c : Caller) (err : Option GoErr) : Option GoErr :=
  some (wrapErr err c.callerPC)

/-- `Caller.Wrap` with the arena's allocation count threaded through:
`wrap` is called unconditionally, so one node is always taken. -/
def callerWrapAlloc (c : Caller) (err : Option GoErr) (allocs : Nat) :
    Option GoErr × Nat :=
  (some (wrapErr err c.callerPC), allocs + 1)

/-- `traceFrame` (tree.go): one symbolized frame. -/
structure TraceFrame where
  name : String
  file : String
  line : Nat
deriving DecidableEq, Repr

/-- `traceTree` (tree.go): the frames of one error chain segment plus one
child tree per member of the multi-error that terminated the segment. -/
structure TraceTree where
  trace : List TraceFrame
  children : List TraceTree
deriving Repr

/-- The host runtime's symbolization of a single PC
(`runtime.CallersFrames([]uintptr{pc})`): the list of frames the frame
iterator yields before its zero-frame end marker.  A PC of 0, or any PC
the runtime cannot symbolize, yields the empty list. -/
def Symbolizer : Type := Nat → List TraceFrame

mutual
/-- The loop of `buildTraceTree` (tree.go): `acc` is `current.Trace` as
accumulated so far; an `errTrace` contributes its PC's frames and descends
through its inner error; a single-unwrap error descends; a multi-error
terminates the node, building one child per member in order; a terminal
error (or nil) terminates the node.  On termination the accumulated frames
are reversed (`sliceReverse(current.Trace)`). -/
def buildGo (symb : Symbolizer) (acc : List TraceFrame) (err : Option GoErr) :
    TraceTree :=
  match err with
  | none => ⟨acc.reverse, []⟩
  | some (.errTrace inner pcv) => buildGo symb (acc ++ symb pcv) inner
  | some (.wrapper _ inner) => buildGo symb acc (some inner)
  | some (.multi _ errs) => ⟨acc.reverse, buildList symb errs⟩
  | some (.base _) => ⟨acc.reverse, []⟩
termination_by sizeOf err
decreasing_by
all_goals simp_wf
all_goals omega

/-- The children loop of `buildTraceTree`'s multi-error case: one
recursive `buildTraceTree` per member, in the order provided. -/
def buildList (symb : Symbolizer) (errs : List GoErr) : List TraceTree :=
  match errs with
  | [] => []
  | e :: es => buildGo symb [] (some e) :: buildList symb es
termination_by sizeOf errs
decreasing_by
all_goals simp_wf
all_goals cases es <;> simp +arith
end

/-- `buildTraceTree(err)` (tree.go): run the loop with an empty trace. -/
def buildTraceTree (symb : Symbolizer) (err : Option GoErr) : TraceTree :=
  buildGo symb [] err

/-- The frames recorded while unwrapping an error, in accumulation order:
the frames of the outermost wrap first.  This is the spec's description of
`current.Trace` before the terminating reversal. -/
def accFrames (symb : Symbolizer) : Option GoErr → List TraceFrame
  | some (.errTrace inner pcv) => symb pcv ++ accFrames symb inner
  | some (.wrapper _ inner) => accFrames symb (some inner)
  | _ => []

/-- The members of the first multi-error met while unwrapping an error
(empty when unwrapping ends at a terminal error instead). -/
def multiErrs : Option GoErr → List GoErr
  | some (.errTrace inner _) => multiErrs inner
  | some (.wrapper _ inner) => multiErrs (some inner)
  | some (.multi _ errs) => errs
  | _ => []

/-- Unwrapping `err` reaches a multi-error exposing exactly `errs`. -/
inductive ReachesMulti : Option GoErr → List GoErr → Prop where
  | multi (m : String) (errs : List GoErr) :
      ReachesMulti (some (.multi m errs)) errs
  | viaTrace (inner : Option GoErr) (pcv : Nat) (errs : List GoErr) :
      ReachesMulti inner errs → ReachesMulti (some (.errTrace inner pcv)) errs
  | viaWrapper (m : String) (inner : GoErr) (errs : List GoErr) :
      ReachesMulti (some inner) errs → ReachesMulti (some (.wrapper m inner)) errs

mutual
/-- Every node of a trace tree, in preorder. -/
def allNodes : TraceTree → List TraceTree
  | ⟨tr, children⟩ => ⟨tr, children⟩ :: allNodesList children

/-- `allNodes` over a list of trees, concatenated. -/
def allNodesList : List TraceTree → List TraceTree
  | [] => []
  | t :: ts => allNodes t ++ allNodesList ts
end

/-- `treeWriter.pipes` (tree.go): the indentation written before a line at
tree position `path`.  The entry at the last depth writes `last`; earlier
depths write three spaces for a first child (nothing to connect to) and a
pipe otherwise. -/
def pipes (path : List Nat) (last : String) : String :=
  match path with
  | [] => ""
  | [_] => last
  | idx :: rest => (if idx == 0 then "   " else "|  ") ++ pipes rest last

/-- One frame of `treeWriter.writeTrace`: the function-name line, then the
indented `file:line` line (`\t%s:%d\n`). -/
def frameLines (path : List Nat) (i : Nat) (f : TraceFrame) : String :=
  (if i == 0 then pipes path "+- " else pipes path "|  ") ++ f.name ++ "\n"
    ++ pipes path "|  " ++ "\t" ++ f.file ++ ":" ++ toString f.line ++ "\n"

/-- The frame loop of `treeWriter.writeTrace`, with `i` the loop index. -/
def framesOut (path : List Nat) (i : Nat) (trace : List TraceFrame) : String :=
  match trace with
  | [] => ""
  | f :: rest => frameLines path i f ++ framesOut path (i + 1) rest

/-- `treeWriter.writeTrace` (tree.go): all frames in pairs of lines; a
node with no frames is marked by a single `+` line; a node below the root
is closed by a connecting pipe line. -/
def writeTrace (trace : List TraceFrame) (path : List Nat) : String :=
  (if trace.length > 0 then framesOut path 0 trace
   else pipes path "+- " ++ "+\n")
    ++ (if path.length > 0 then pipes path "|  " ++ "\n" else "")

mutual
/-- `treeWriter.writeTree` (tree.go): render every child first, depth
first, then this node's own frames. -/
def writeTreeGo (t : TraceTree) (path : List Nat) : String :=
  writeChildren t.children path 0 ++ writeTrace t.trace path
termination_by sizeOf t
decreasing_by
simp_wf
cases t
simp +arith

/-- The children loop of `treeWriter.writeTree`: child `i` is rendered at
position `path ++ [i]`. -/
def writeChildren (children : List TraceTree) (path : List Nat) (i : Nat) :
    String :=
  match children with
  | [] => ""
  | c :: cs => writeTreeGo c (path ++ [i]) ++ writeChildren cs path (i + 1)
termination_by sizeOf children
decreasing_by
all_goals simp_wf
all_goals simp +arith
end

/-- `writeTree(w, tree)` (tree.go): render the tree from the root path. -/
def writeTree (t : TraceTree) : String :=
  writeTreeGo t []

/-- `FormatString(target)` (errtrace.go): build the trace tree and render
it. -/
def FormatString (symb : Symbolizer) (err : Option GoErr) : String :=
  writeTree (buildTraceTree symb err)

/-- The zero `runtime.Frame` (`runtime.Frame{}`). -/
def zeroFrame : TraceFrame := ⟨"", "", 0⟩

/-- One step of the frame iterator (`frames.Next()` on a single-PC
`CallersFrames`): the first symbolized frame, or the zero frame when the
PC does not symbolize. -/
def frameOf (symb : Symbolizer) (pcv : Nat) : TraceFrame :=
  ((symb pcv).head?).getD zeroFrame

/-- The tracer capability (`TracePC() uintptr`): the annotation node
yields its captured PC; no other modelled error type has the method. -/
def tracePC : GoErr → Option Nat
  | .errTrace _ pcv => some pcv
  | _ => none

/-- `UnwrapFrame(err)` (the `TracePC`-capability version): probe the
tracer capability; on failure return `err` unchanged with a zero frame;
otherwise chain-unwrap to the inner error and symbolize the PC, reporting
`ok=false` with a zero frame if the PC yields the zero frame. -/
def UnwrapFrame (symb : Symbolizer) (err : Option GoErr) :
    TraceFrame × Option GoErr × Bool :=
  match err with
  | none => (zeroFrame, none, false)
  | some e =>
    match tracePC e with
    | none => (zeroFrame, some e, false)
    | some pcv =>
      let inner := errorsUnwrap e
      let f := frameOf symb pcv
      if f = zeroFrame then (zeroFrame, inner, false)
      else (f, inner, true)

/-- Source positions of a node in the parsed file (`Pos()`/`End()`). -/
structure Span where
  pos : Nat
  endPos : Nat
deriving DecidableEq, Repr

/-- The expression forms of the Go AST that the walker's return-site
logic inspects: identifiers, selector expressions, call expressions, and
any other expression (abstracted as `basicLit`). -/
inductive GoExpr where
  | ident (span : Span) (name : String) : GoExpr
  | selector (span : Span) (x : GoExpr) (sel : String) : GoExpr
  | call (span : Span) (fn : GoExpr) (args : List GoExpr) : GoExpr
  | basicLit (span : Span) (value : String) : GoExpr

/-- `Pos()` of an expression. -/
def GoExpr.pos : GoExpr → Nat
  | .ident s _ => s.pos
  | .selector s _ _ => s.pos
  | .call s _ _ => s.pos
  | .basicLit s _ => s.pos

/-- `End()` of an expression. -/
def GoExpr.endPos : GoExpr → Nat
  | .ident s _ => s.endPos
  | .selector s _ _ => s.endPos
  | .call s _ _ => s.endPos
  | .basicLit s _ => s.endPos

/-- `isIdent(expr, name)` (main.go): the expression is an identifier with
exactly this name. -/
def isIdentNamed (expr : GoExpr) (name : String) : Bool :=
  match expr with
  | .ident _ n => n == name
  | _ => false

/-- `strings.HasPrefix(s, pre)`: `s` begins with the characters of
`pre`. -/
def goStartsWith (s pre : String) : Bool :=
  pre.data.isPrefixOf s.data

/-- `walker.isErrtraceWrap` (main.go): the expression is a call whose
function is a selector `q.F` with `q` the file's errtrace package name and
`F` starting with `Wrap`, or equal to `New` or `Errorf`.  The check is
purely lexical on the selector. -/
def isErrtraceWrap (errtracePkg : String) (expr : GoExpr) : Bool :=
  match expr with
  | .call _ fn _ =>
    match fn with
    | .selector _ x selName =>
      isIdentNamed x errtracePkg &&
        (goStartsWith selName "Wrap" || selName == "New" || selName == "Errorf")
    | _ => false
  | _ => false

/-- The edits the walker plans that wrap an expression
(`insertWrapOpen` / `insertWrapClose` from main.go). -/
inductive InsertEdit where
  | wrapOpen (n : Nat) (before : Nat) : InsertEdit
  | wrapClose (after : Nat) : InsertEdit
deriving DecidableEq, Repr

/-- The walker state the modelled fragments touch: the chosen errtrace
package name, the opt-out markers (`line → use count`), and the planned
inserts. -/
structure Walker where
  errtracePkg : String
  optouts : List (Nat × Nat)
  inserts : List InsertEdit
deriving DecidableEq, Repr

/-- Increment the use count stored for `line` (map update). -/
def bumpLine (line : Nat) : List (Nat × Nat) → List (Nat × Nat)
  | [] => []
  | (l, c) :: rest =>
    if l = line then (l, c + 1) :: rest else (l, c) :: bumpLine line rest

/-- `walker.optout` (main.go): report whether the line of `pos` carries an
`errtrace:skip` marker, incrementing that marker's use count if so.
`lineOf` is the file-set's position-to-line map. -/
def Walker.optout (w : Walker) (lineOf : Nat → Nat) (pos : Nat) :
    Bool × Walker :=
  let line := lineOf pos
  match w.optouts.lookup line with
  | some _ => (true, { w with optouts := bumpLine line w.optouts })
  | none => (false, w)

/-- `walker.wrapExpr` (main.go): plan a wrap edit around `expr` unless the
expression is already an errtrace wrap call, is the literal `nil`, or its
line is opted out (in which case the marker's use count is bumped). -/
def Walker.wrapExpr (w : Walker) (lineOf : Nat → Nat) (n : Nat)
    (expr : GoExpr) : Walker :=
  if isErrtraceWrap w.errtracePkg expr then w
  else if isIdentNamed expr "nil" then w
  else
    let (opted, w') := w.optout lineOf expr.pos
    if opted then w'
    else { w' with
           inserts := w'.inserts ++
             [.wrapOpen n expr.pos, .wrapClose expr.endPos] }

/-- The unused-opt-out computation of `mainCmd.parseFile` (main.go): the
marker lines whose use count is still zero after the walk, sorted;
`processFile` emits one `unused errtrace:skip` diagnostic per entry. -/
def unusedOptouts (optouts : List (Nat × Nat)) : List Nat :=
  ((optouts.filter fun p => p.2 == 0).map Prod.fst).mergeSort (· ≤ ·)

/-- `toolExecParams` (toolexec.go), minus the flag-set handle. -/
structure ToolExecParams where
  RequiredPkgSelectors : List String
  Tool : String
  ToolArgs : List String
deriving DecidableEq, Repr

/-- Go's `%v` of a string slice: the elements separated by spaces inside
brackets. -/
def goFmtList (l : List String) : String :=
  "[" ++ String.intercalate " " l ++ "]"

/-- Go's `%v` of a `toolExecParams` value whose flag-set field is nil. -/
def toolExecParamsFmt (p : ToolExecParams) : String :=
  "\x7b" ++ goFmtList p.RequiredPkgSelectors ++ " " ++ p.Tool ++ " "
    ++ goFmtList p.ToolArgs ++ " <nil>\x7d"

/-- `toolExecParams.versionCacheKey` (toolexec.go): hash the printed form
of a copy of the parameters with the tool name, the tool arguments, and
the flag-set handle cleared.  `md5hex` models
`hex.EncodeToString(md5.Sum(...))`, a pure function of its input. -/
def versionCacheKey (md5hex : String → String) (p : ToolExecParams) : String :=
  md5hex (toolExecParamsFmt { p with Tool := "", ToolArgs := [] })

/-- The line `mainCmd.toolExecVersion` (toolexec.go) writes to stdout:
`%s-errtrace-%s%s\n` applied to the real tool's trimmed version output,
the wrapper's version, and the option hash. -/
def toolExecVersionOutput (md5hex : String → String) (toolOut : String)
    (version : String) (p : ToolExecParams) : String :=
  toolOut.trim ++ "-errtrace-" ++ version ++ versionCacheKey md5hex p ++ "\n"

/-! Helper lemmas. -/

mutual
theorem geq_refl : ∀ e, geq e e = true
  | .base m => by simp [geq]
  | .errTrace i p => by simp [geq, geqOpt_refl i]
  | .wrapper m i => by simp [geq, geq_refl i]
  | .multi m es => by simp [geq, geqList_refl es]

theorem geqOpt_refl : ∀ o, geqOpt o o = true
  | none => by simp [geqOpt]
  | some a => by simp [geqOpt, geq_refl a]

theorem geqList_refl : ∀ l, geqList l l = true
  | [] => by simp [geqList]
  | a :: as => by simp [geqList, geq_refl a, geqList_refl as]
end

theorem errorsIs_self (e : GoErr) : errorsIs e e = true := by
  rw [errorsIs.eq_def]
  simp [geq_refl]


theorem buildGo_eq (symb : Symbolizer) :
    ∀ (acc : List TraceFrame) (err : Option GoErr),
      buildGo symb acc err =
        ⟨(acc ++ accFrames symb err).reverse, buildList symb (multiErrs err)⟩
  | acc, none => by simp [buildGo, accFrames, multiErrs, buildList]
  | acc, some (.errTrace inner pcv) => by
      rw [buildGo, buildGo_eq symb (acc ++ symb pcv) inner]
      simp [accFrames, multiErrs]
  | acc, some (.wrapper m inner) => by
      rw [buildGo, buildGo_eq symb acc (some inner)]
      simp [accFrames, multiErrs]
  | acc, some (.multi m errs) => by simp [buildGo, accFrames, multiErrs]
  | acc, some (.base m) => by simp [buildGo, accFrames, multiErrs, buildList]
termination_by acc err => sizeOf err
decreasing_by
all_goals simp_wf
all_goals omega

theorem buildList_eq_map (symb : Symbolizer) (errs : List GoErr) :
    buildList symb errs = errs.map fun e => buildTraceTree symb (some e) := by
  induction errs with
  | nil => simp [buildList]
  | cons e es ih => simp [buildList, buildTraceTree, ih]

theorem sizeOf_mem_multiErrs :
    ∀ (err : Option GoErr) (e : GoErr), e ∈ multiErrs err →
      sizeOf (some e : Option GoErr) < sizeOf err
  | some (.errTrace inner pcv), e, h => by
      have ih := sizeOf_mem_multiErrs inner e (by simpa [multiErrs] using h)
      simp
      simp at ih
      omega
  | some (.wrapper m inner), e, h => by
      have ih := sizeOf_mem_multiErrs (some inner) e (by simpa [multiErrs] using h)
      simp
      simp at ih
      omega
  | some (.multi m errs), e, h => by
      have hlt := List.sizeOf_lt_of_mem (by simpa [multiErrs] using h)
      simp
      omega
  | some (.base m), e, h => by simp [multiErrs] at h
  | none, e, h => by simp [multiErrs] at h
termination_by err e h => sizeOf err
decreasing_by
all_goals simp_wf
all_goals omega

theorem ReachesMulti.multiErrs_eq :
    ∀ {err : Option GoErr} {errs : List GoErr},
      ReachesMulti err errs → multiErrs err = errs := by
  intro err errs h
  induction h with
  | multi m errs => simp [multiErrs]
  | viaTrace inner pcv errs _ ih => simpa [multiErrs] using ih
  | viaWrapper m inner errs _ ih => simpa [multiErrs] using ih

theorem mem_allNodesList (t : TraceTree) :
    ∀ (ts : List TraceTree), t ∈ allNodesList ts ↔ ∃ u ∈ ts, t ∈ allNodes u := by
  intro ts
  induction ts with
  | nil => simp [allNodesList]
  | cons u us ih =>
    rw [allNodesList]
    simp [ih]

theorem allNodes_buildTraceTree (symb : Symbolizer) :
    ∀ (err : Option GoErr) (t : TraceTree),
      t ∈ allNodes (buildTraceTree symb err) →
      ∃ err', t = buildTraceTree symb err'
  | err, t, h => by
      rw [buildTraceTree, buildGo_eq] at h
      rw [allNodes] at h
      rcases List.mem_cons.mp h with h1 | h2
      · refine ⟨err, ?_⟩
        rw [buildTraceTree, buildGo_eq]
        simpa using h1
      · rw [buildList_eq_map] at h2
        rcases (mem_allNodesList t _).mp h2 with ⟨u, hu, htu⟩
        rcases List.mem_map.mp hu with ⟨e0, he0, rfl⟩
        exact allNodes_buildTraceTree symb (some e0) t htu
termination_by err t h => sizeOf err
decreasing_by
simp_wf
exact sizeOf_mem_multiErrs err e0 he0

theorem writeChildren_eq :
    ∀ (cs : List TraceTree) (path : List Nat) (i : Nat),
      writeChildren cs path i =
        ((cs.enumFrom i).map fun p => writeTreeGo p.2 (path ++ [p.1])).foldr
          (· ++ ·) "" := by
  intro cs
  induction cs with
  | nil => intro path i; simp [writeChildren]
  | cons c rest ih =>
    intro path i
    rw [writeChildren]
    simp [List.enumFrom, ih]

theorem writeTreeGo_eq (t : TraceTree) (path : List Nat) :
    writeTreeGo t path =
      ((t.children.enum.map fun p => writeTreeGo p.2 (path ++ [p.1])).foldr
        (· ++ ·) "")
        ++ writeTrace t.trace path := by
  cases t with
  | mk tr ch =>
    rw [writeTreeGo, writeChildren_eq]
    rfl

theorem mem_keys_lookup :
    ∀ (l : List (Nat × Nat)) (k : Nat),
      k ∈ l.map Prod.fst → ∃ c, l.lookup k = some c := by
  intro l
  induction l with
  | nil => intro k h; simp at h
  | cons p rest ih =>
    intro k h
    rcases p with ⟨a, b⟩
    by_cases hk : k = a
    · refine ⟨b, ?_⟩
      have hka : (k == a) = true := by simpa using hk
      simp [List.lookup, hka]
    · have hka : (k == a) = false := by simpa using hk
      have h2 : k ∈ rest.map Prod.fst := by
        rcases (by simpa using h : k = a ∨ ∃ x, (k, x) ∈ rest) with h1 | ⟨x, hx⟩
        · exact absurd h1 hk
        · exact List.mem_map_of_mem Prod.fst hx
      rcases ih k h2 with ⟨c, hc⟩
      refine ⟨c, ?_⟩
      simp [List.lookup, hka, hc]

theorem lookup_nodup :
    ∀ (l : List (Nat × Nat)) (k v : Nat),
      (l.map Prod.fst).Nodup → (k, v) ∈ l → l.lookup k = some v := by
  intro l
  induction l with
  | nil => intro k v _ h; simp at h
  | cons p rest ih =>
    intro k v hnd h
    rcases p with ⟨a, b⟩
    have hnd2 : a ∉ rest.map Prod.fst ∧ (rest.map Prod.fst).Nodup := by
      rw [List.map_cons] at hnd
      exact List.nodup_cons.mp hnd
    rcases List.mem_cons.mp h with h1 | h2
    · cases h1
      simp [List.lookup]
    · have hk : k ≠ a := by
        intro hka
        subst hka
        exact hnd2.1 (List.mem_map_of_mem Prod.fst h2)
      have hka : (k == a) = false := by simpa using hk
      simp [List.lookup, hka]
      exact ih k v hnd2.2 h2

theorem nodup_val_unique :
    ∀ (l : List (Nat × Nat)) (k v v' : Nat),
      (l.map Prod.fst).Nodup → (k, v) ∈ l → (k, v') ∈ l → v = v' := by
  intro l k v v' hnd h1 h2
  have e1 := lookup_nodup l k v hnd h1
  have e2 := lookup_nodup l k v' hnd h2
  rw [e1] at e2
  exact Option.some.inj e2

theorem bumpLine_mem :
    ∀ (l : List (Nat × Nat)) (k v : Nat),
      (l.map Prod.fst).Nodup → (k, v) ∈ l → (k, v + 1) ∈ bumpLine k l := by
  intro l
  induction l with
  | nil => intro k v _ h; simp at h
  | cons p rest ih =>
    intro k v hnd h
    rcases p with ⟨a, b⟩
    have hnd2 : a ∉ rest.map Prod.fst ∧ (rest.map Prod.fst).Nodup := by
      rw [List.map_cons] at hnd
      exact List.nodup_cons.mp hnd
    rcases List.mem_cons.mp h with h1 | h2
    · cases h1
      rw [bumpLine]
      rw [if_pos rfl]
      exact List.mem_cons_self ..
    · have hk : a ≠ k := by
        intro hak
        subst hak
        exact hnd2.1 (List.mem_map_of_mem Prod.fst h2)
      rw [bumpLine]
      rw [if_neg hk]
      exact List.mem_cons_of_mem _ (ih k v hnd2.2 h2)

/-! Claim theorems. -/

/-- C1: `Wrap(nil)` is nil and takes nothing from the arena; `Wrap` of a
non-nil error takes one fresh annotation node from the arena and returns
it, non-nil, wrapping the given error. -/
theorem wrap_nil_and_fresh (callerPC allocs : Nat) :
    WrapAlloc none callerPC allocs = (none, allocs)
      ∧ Wrap none callerPC = none
      ∧ ∀ e : GoErr,
          WrapAlloc (some e) callerPC allocs
              = (some (.errTrace (some e) callerPC), allocs + 1)
            ∧ Wrap (some e) callerPC ≠ none
            ∧ errorsUnwrap (wrapErr (some e) callerPC) = some e := by
  refine ⟨rfl, rfl, fun e => ⟨rfl, by simp [Wrap], rfl⟩⟩

/-- C2: the annotation node returned by `Wrap` for a non-nil error
forwards the inner error's message, chain-unwraps to exactly the inner
error, and the standard is-this-error lookup reaches the inner error from
the wrapped value. -/
theorem wrap_forwards_and_unwraps (e : GoErr) (callerPC : Nat) :
    Wrap (some e) callerPC = some (wrapErr (some e) callerPC)
      ∧ errMessage (wrapErr (some e) callerPC) = errMessage e
      ∧ errorsUnwrap (wrapErr (some e) callerPC) = some e
      ∧ errorsIs (wrapErr (some e) callerPC) e = true := by
  refine ⟨rfl, by simp [wrapErr, errMessage], rfl, ?_⟩
  rw [wrapErr, errorsIs.eq_def]
  simp [errorsIs_self e]

/-- C3 (counterexample): the claim "when ok=false the inner error is err
unchanged" fails: for an annotation node whose PC does not symbolize,
`UnwrapFrame` reports ok=false yet returns the chain-unwrapped inner
error, not the input error. -/
theorem unwrapFrame_inner_changed :
    (UnwrapFrame (fun _ => []) (some (.errTrace (some (.base "x")) 7))).2.2
        = false
      ∧ (UnwrapFrame (fun _ => []) (some (.errTrace (some (.base "x")) 7))).2.1
          ≠ some (.errTrace (some (.base "x")) 7) := by
  constructor
  · simp [UnwrapFrame, tracePC, errorsUnwrap, frameOf, zeroFrame]
  · simp [UnwrapFrame, tracePC, errorsUnwrap, frameOf, zeroFrame]

/-- C3 (amended): ok is true iff the error has the tracer capability and
its PC symbolizes to a nonzero frame; whenever the capability is present
the returned inner error is the chain-unwrap, whether or not the PC
symbolizes; only when the capability is absent (or the error is nil) is
the input returned unchanged, with a zero frame. -/
theorem unwrapFrame_spec (symb : Symbolizer) (err : Option GoErr) :
    ((UnwrapFrame symb err).2.2 = true ↔
        ∃ e pcv, err = some e ∧ tracePC e = some pcv
          ∧ frameOf symb pcv ≠ zeroFrame)
      ∧ (∀ e pcv, err = some e → tracePC e = some pcv →
          UnwrapFrame symb err =
            if frameOf symb pcv = zeroFrame then
              (zeroFrame, errorsUnwrap e, false)
            else (frameOf symb pcv, errorsUnwrap e, true))
      ∧ (∀ e, err = some e → tracePC e = none →
          UnwrapFrame symb err = (zeroFrame, some e, false))
      ∧ (err = none → UnwrapFrame symb err = (zeroFrame, none, false)) := by
  refine ⟨?_, ?_, ?_, ?_⟩
  · constructor
    · intro h
      match err with
      | none => simp [UnwrapFrame] at h
      | some e =>
        match he : tracePC e with
        | none => simp [UnwrapFrame, he] at h
        | some pcv =>
          refine ⟨e, pcv, rfl, he, ?_⟩
          intro hz
          simp [UnwrapFrame, he, hz] at h
    · rintro ⟨e, pcv, rfl, he, hz⟩
      simp [UnwrapFrame, he, hz]
  · rintro e pcv rfl he
    by_cases hz : frameOf symb pcv = zeroFrame
    · simp [UnwrapFrame, he, hz]
    · simp [UnwrapFrame, he, hz]
  · rintro e rfl he
    simp [UnwrapFrame, he]
  · rintro rfl
    simp [UnwrapFrame]

/-- C3 (witness): a concrete run through the capability-present,
PC-symbolizes branch of the amended statement. -/
theorem unwrapFrame_spec_witness :
    UnwrapFrame (fun _ => [⟨"f", "g.go", 3⟩])
        (some (.errTrace (some (.base "a")) 1))
      = (⟨"f", "g.go", 3⟩, some (.base "a"), true) := by
  have h := (unwrapFrame_spec (fun _ => [⟨"f", "g.go", 3⟩])
      (some (.errTrace (some (.base "a")) 1))).2.1
      (.errTrace (some (.base "a")) 1) 1 rfl rfl
  rw [h]
  simp [frameOf, zeroFrame, errorsUnwrap]

/-- C7 (counterexample): `Caller.Wrap` of a nil error is not nil and does
allocate an annotation node, unlike `Wrap` of nil. -/
theorem callerWrap_nil_not_nil :
    Caller.Wrap ⟨5⟩ none ≠ Wrap none 5
      ∧ Caller.Wrap ⟨5⟩ none ≠ none
      ∧ (callerWrapAlloc ⟨5⟩ none 0).2 = 1
      ∧ (WrapAlloc none 5 0).2 = 0 := by
  refine ⟨?_, ?_, rfl, rfl⟩ <;> simp [Caller.Wrap, Wrap, wrapErr]

/-- C7 (amended): for a non-nil error, `Caller.Wrap` behaves exactly like
`Wrap` performed with the handle's captured PC, including its single
arena allocation; for a nil error it departs from `Wrap`: it still
allocates and returns a non-nil annotation node wrapping nil. -/
theorem callerWrap_spec (c : Caller) (allocs : Nat) :
    (∀ e : GoErr,
        callerWrapAlloc c (some e) allocs = WrapAlloc (some e) c.callerPC allocs
          ∧ Caller.Wrap c (some e) = Wrap (some e) c.callerPC)
      ∧ callerWrapAlloc c none allocs
          = (some (.errTrace none c.callerPC), allocs + 1)
      ∧ Caller.Wrap c none = some (.errTrace none c.callerPC) := by
  exact ⟨fun e => ⟨rfl, rfl⟩, rfl, rfl⟩

/-- C4: when unwrapping reaches a multi-error with k members, the tree
node ends there with exactly k children, one per member in order, and the
rendered output is the concatenation of each child's rendering in that
order followed by this node's own frames. -/
theorem buildTraceTree_multi (symb : Symbolizer) (err : Option GoErr)
    (errs : List GoErr) (h : ReachesMulti err errs) :
    (buildTraceTree symb err).children
        = errs.map (fun e => buildTraceTree symb (some e))
      ∧ (buildTraceTree symb err).children.length = errs.length
      ∧ ∀ path, writeTreeGo (buildTraceTree symb err) path =
          (((buildTraceTree symb err).children.enum.map
              fun p => writeTreeGo p.2 (path ++ [p.1])).foldr (· ++ ·) "")
            ++ writeTrace (buildTraceTree symb err).trace path := by
  have hch : (buildTraceTree symb err).children
      = errs.map (fun e => buildTraceTree symb (some e)) := by
    rw [buildTraceTree, buildGo_eq, ReachesMulti.multiErrs_eq h,
      buildList_eq_map]
  refine ⟨hch, by rw [hch]; simp, fun path => writeTreeGo_eq _ path⟩

/-- C4 (witness): a two-member `errors.Join` value yields exactly its two
children, in order. -/
theorem buildTraceTree_multi_witness :
    (buildTraceTree (fun _ => [])
        (some (.multi "m" [.base "a", .base "b"]))).children
      = [buildTraceTree (fun _ => []) (some (.base "a")),
         buildTraceTree (fun _ => []) (some (.base "b"))] := by
  have h := (buildTraceTree_multi (fun _ => [])
      (some (.multi "m" [.base "a", .base "b"]))
      [.base "a", .base "b"] (ReachesMulti.multi "m" _)).1
  simpa using h

/-- C5: every node of a built trace tree is itself the full build of some
error, and its frame sequence is the reverse of the frames accumulated
while unwrapping that error (so the deepest wrap comes first). -/
theorem buildTraceTree_innermost_first (symb : Symbolizer)
    (err : Option GoErr) (t : TraceTree)
    (h : t ∈ allNodes (buildTraceTree symb err)) :
    ∃ err', t = buildTraceTree symb err'
      ∧ t.trace = (accFrames symb err').reverse := by
  obtain ⟨err', rfl⟩ := allNodes_buildTraceTree symb err t h
  refine ⟨err', rfl, ?_⟩
  rw [buildTraceTree, buildGo_eq]
  simp

/-- C5 (witness): the single node built from a terminal error. -/
theorem buildTraceTree_innermost_first_witness :
    (⟨[], []⟩ : TraceTree)
        ∈ allNodes (buildTraceTree (fun _ => []) (some (.base "x")))
      ∧ ∃ err', (⟨[], []⟩ : TraceTree) = buildTraceTree (fun _ => []) err'
          ∧ (⟨[], []⟩ : TraceTree).trace
              = (accFrames (fun _ => []) err').reverse := by
  have hb : buildTraceTree (fun _ => []) (some (.base "x"))
      = (⟨[], []⟩ : TraceTree) := by
    rw [buildTraceTree, buildGo_eq]
    simp [accFrames, multiErrs, buildList]
  have hmem : (⟨[], []⟩ : TraceTree)
      ∈ allNodes (buildTraceTree (fun _ => []) (some (.base "x"))) := by
    rw [hb, allNodes]
    exact List.mem_cons_self ..
  exact ⟨hmem, buildTraceTree_innermost_first _ _ _ hmem⟩

/-- C6: the renderer works depth first with children first: the output of
a node is the concatenation of its children's renderings, in order, each
above the node's own frames. -/
theorem writeTree_children_first (t : TraceTree) (path : List Nat) :
    writeTreeGo t path =
      ((t.children.enum.map fun p => writeTreeGo p.2 (path ++ [p.1])).foldr
        (· ++ ·) "")
        ++ writeTrace t.trace path :=
  writeTreeGo_eq t path

/-- C8: a line bearing a skip marker never receives a wrap edit; a
suppressed edit bumps the marker's use count; and a marker line appears in
the unused-marker diagnostics exactly when its use count stayed zero. -/
theorem skip_marker_spec :
    (∀ (w : Walker) (lineOf : Nat → Nat) (n : Nat) (expr : GoExpr),
        lineOf expr.pos ∈ w.optouts.map Prod.fst →
        (w.wrapExpr lineOf n expr).inserts = w.inserts)
      ∧ (∀ (w : Walker) (lineOf : Nat → Nat) (n : Nat) (expr : GoExpr)
            (c : Nat),
          (w.optouts.map Prod.fst).Nodup →
          (lineOf expr.pos, c) ∈ w.optouts →
          isErrtraceWrap w.errtracePkg expr = false →
          isIdentNamed expr "nil" = false →
          (lineOf expr.pos, c + 1) ∈ (w.wrapExpr lineOf n expr).optouts)
      ∧ (∀ (optouts : List (Nat × Nat)) (line c : Nat),
          (optouts.map Prod.fst).Nodup →
          (line, c) ∈ optouts →
          (line ∈ unusedOptouts optouts ↔ c = 0)) := by
  refine ⟨?_, ?_, ?_⟩
  · intro w lineOf n expr h
    by_cases h1 : isErrtraceWrap w.errtracePkg expr
    · simp [Walker.wrapExpr, h1]
    · by_cases h2 : isIdentNamed expr "nil"
      · simp [Walker.wrapExpr, h1, h2]
      · obtain ⟨c, hc⟩ := mem_keys_lookup _ _ h
        simp [Walker.wrapExpr, h1, h2, Walker.optout, hc]
  · intro w lineOf n expr c hnd hmem h1 h2
    have hc := lookup_nodup _ _ _ hnd hmem
    have hb := bumpLine_mem _ _ _ hnd hmem
    simpa [Walker.wrapExpr, h1, h2, Walker.optout, hc] using hb
  · intro optouts line c hnd hmem
    rw [unusedOptouts, List.mem_mergeSort]
    constructor
    · intro h
      obtain ⟨⟨k, v⟩, hkv, hfst⟩ := List.mem_map.mp h
      obtain ⟨hkv', hv0⟩ := List.mem_filter.mp hkv
      have hk : k = line := hfst
      subst hk
      have hv : v = c := nodup_val_unique optouts k v c hnd hkv' hmem
      have : v = 0 := by simpa using hv0
      omega
    · intro hc0
      subst hc0
      exact List.mem_map.mpr
        ⟨(line, 0), List.mem_filter.mpr ⟨hmem, by simp⟩, rfl⟩

/-- C8 (witness): a marked line suppresses the wrap edit, and an unused
marker (count zero) is diagnosed. -/
theorem skip_marker_spec_witness :
    (Walker.wrapExpr ⟨"errtrace", [(4, 0)], []⟩ (fun _ => 4) 1
        (.ident ⟨10, 13⟩ "err")).inserts = ([] : List InsertEdit)
      ∧ (4 ∈ unusedOptouts [(4, 0)] ↔ (0 : Nat) = 0) := by
  constructor
  · have h := skip_marker_spec.1 ⟨"errtrace", [(4, 0)], []⟩ (fun _ => 4) 1
      (.ident ⟨10, 13⟩ "err") (by decide)
    simpa using h
  · exact skip_marker_spec.2.2 [(4, 0)] 4 0 (by decide) (by decide)

/-- C9: the interposer's version probe writes the real tool's trimmed
version, then `-errtrace-`, then the wrapper version, then the option
hash and a newline; the option hash depends only on the
rewriting-affecting flags, not on the tool path or tool arguments. -/
theorem toolexec_version_spec (md5hex : String → String)
    (toolOut version : String) (p : ToolExecParams) :
    toolExecVersionOutput md5hex toolOut version p
        = toolOut.trim ++ "-errtrace-" ++ version
            ++ versionCacheKey md5hex p ++ "\n"
      ∧ ∀ q : ToolExecParams,
          q.RequiredPkgSelectors = p.RequiredPkgSelectors →
          versionCacheKey md5hex q = versionCacheKey md5hex p := by
  refine ⟨rfl, ?_⟩
  intro q hq
  rw [versionCacheKey, versionCacheKey, toolExecParamsFmt, toolExecParamsFmt]
  simp [hq]

/-- C9 (witness): two invocations differing only in tool path and tool
arguments produce the same option hash. -/
theorem toolexec_version_spec_witness :
    versionCacheKey id ⟨["a/..."], "compile", ["x.go"]⟩
      = versionCacheKey id ⟨["a/..."], "link", ["y.go", "-std"]⟩ :=
  (toolexec_version_spec id "go1.21" "v1"
      ⟨["a/..."], "link", ["y.go", "-std"]⟩).2
    ⟨["a/..."], "compile", ["x.go"]⟩ rfl

/-- C10: a return-site expression that is lexically a call `q.F(...)`
with `q` the file's errtrace package name and `F` starting with `Wrap` or
equal to `New` or `Errorf` is never wrapped: the walker state is left
untouched, whatever function the selector actually refers to. -/
theorem lexical_wrap_suppression (w : Walker) (lineOf : Nat → Nat) (n : Nat)
    (cspan fspan : Span) (x : GoExpr) (selName : String)
    (args : List GoExpr)
    (hx : isIdentNamed x w.errtracePkg = true)
    (hsel : goStartsWith selName "Wrap" = true
      ∨ selName = "New" ∨ selName = "Errorf") :
    Walker.wrapExpr w lineOf n
        (.call cspan (.selector fspan x selName) args) = w := by
  have hw : isErrtraceWrap w.errtracePkg
      (.call cspan (.selector fspan x selName) args) = true := by
    simp only [isErrtraceWrap]
    rw [hx]
    rcases hsel with h | h | h <;> simp [h]
  simp [Walker.wrapExpr, hw]

/-- C10 (witness): a call to a non-library function whose name merely
begins with `Wrap` is left unwrapped. -/
theorem lexical_wrap_suppression_witness :
    Walker.wrapExpr ⟨"errtrace", [], []⟩ (fun _ => 1) 1
        (.call ⟨5, 30⟩
          (.selector ⟨5, 20⟩ (.ident ⟨5, 13⟩ "errtrace") "WrapTable") [])
      = ⟨"errtrace", [], []⟩ :=
  lexical_wrap_suppression _ _ _ _ _ _ _ _ (by decide) (Or.inl (by decide))
